import Mathlib

/-!
Shallow embedding of the sample mixer/sequencer in `src/rhythmbox.py`
(classes `Sample` and `Mixer`), with proofs about the specification claims.

Modelling conventions:
* Machine floats are modelled as exact rationals (`ℚ`).  Python's `int(x)`
  truncates toward zero; `pyInt` mirrors that.
* A PCM buffer (`Sample.__frames`, a Python `bytes`) is modelled as a
  `List ℤ` with one entry per `sampwidth`-byte PCM sample value.  Every
  byte offset the source computes (`frame_idx`) is a multiple of
  `nchannels * sampwidth`, so every slice the source takes is
  sample-aligned; a byte offset `b` corresponds to `b / sampwidth` list
  entries, and byte lengths are recovered as `sampwidth * frames.length`.
  `frameIdxS` is the source's `frame_idx` divided by `sampwidth`.
* The standard-library module `audioop` (external to this repository) is
  modelled from its documentation: `add` is per-sample saturating
  addition, `mul` per-sample scaling with clipping, `lin2lin` a bit
  shift, `tostereo` per-sample duplication with factors, `ratecv` linear
  rate conversion.
* Python exceptions are modelled with `Except Err`.  A failing
  `assert not self.locked` is `Err.mutationOnLocked` (the error the spec
  calls `MutationOnLockedError`); other failing asserts are
  `Err.assertionFailed`.  Because the source checks `locked` before any
  mutation and the model is functional, a returned `.error` corresponds
  to the Python object being left unchanged.
* `filename` is omitted from the `Sample` model: no operation other than
  WAV I/O (out of scope) reads it.
-/

namespace Rhythmbox

/-- Python `int(x)` applied to a real value: truncation toward zero. -/
def pyInt (q : ℚ) : ℤ := if 0 ≤ q then ⌊q⌋ else ⌈q⌉

/-- The Python exceptions the modelled code can raise. -/
inductive Err where
  | mutationOnLocked
  | assertionFailed
  | valueError (msg : String)
  | audioopError
  | keyError
  | indexError
  | stopIteration
  | zeroDivision
  deriving DecidableEq

/-- Audio sample data: format attributes, the PCM buffer (one list entry
per `sampwidth`-byte sample value) and the mutation lock flag. -/
structure Sample where
  samplerate : ℕ
  nchannels : ℕ
  sampwidth : ℕ
  frames : List ℤ
  locked : Bool
  deriving DecidableEq

def norm_samplerate : ℕ := 44100
def norm_nchannels : ℕ := 2
def norm_sampwidth : ℕ := 2

namespace Sample

/-- `Sample(frames)`: a fresh unlocked sample in the default normalized
format (44100 Hz, 2 channels, 2-byte width). -/
def new (frames : List ℤ) : Sample :=
  { samplerate := norm_samplerate, nchannels := norm_nchannels,
    sampwidth := norm_sampwidth, frames := frames, locked := false }

/-- `Sample.dup`: independent copy with identical buffer and format,
unlocked. -/
def dup (s : Sample) : Sample := { s with locked := false }

/-- `Sample.lock`: mark immutable. -/
def lock (s : Sample) : Sample := { s with locked := true }

/-- `Sample.duration`: `len(__frames) / samplerate / sampwidth / nchannels`
where `len(__frames)` is the byte length `sampwidth * frames.length`. -/
def duration (s : Sample) : ℚ :=
  ((s.sampwidth * s.frames.length : ℕ) : ℚ) / s.samplerate / s.sampwidth / s.nchannels

/-- `Sample.frame_idx(seconds)`: byte offset
`nchannels * sampwidth * int(samplerate * seconds)`. -/
def frame_idx (s : Sample) (seconds : ℚ) : ℤ :=
  (s.nchannels : ℤ) * s.sampwidth * pyInt ((s.samplerate : ℚ) * seconds)

/-- `frame_idx` in units of whole `sampwidth`-byte samples:
`frame_idx s t = sampwidth * frameIdxS s t`.  List operations on the
sample-level buffer use this index. -/
def frameIdxS (s : Sample) (seconds : ℚ) : ℤ :=
  (s.nchannels : ℤ) * pyInt ((s.samplerate : ℚ) * seconds)

end Sample

/-- Python slice-endpoint normalization for a sequence of length `n`:
negative indices count from the end, then the index is clamped to
`[0, n]`. -/
def pyIdx (n : ℕ) (i : ℤ) : ℕ :=
  if i < 0 then ((n : ℤ) + i).toNat else min i.toNat n

/-- Python slice `l[a:b]` (step 1). -/
def pySlice (l : List ℤ) (a b : ℤ) : List ℤ :=
  (l.take (pyIdx l.length b)).drop (pyIdx l.length a)

/-- Saturation bounds of `w`-byte signed PCM arithmetic. -/
def clampW (w : ℕ) (v : ℤ) : ℤ :=
  max (-(2 ^ (8 * w - 1))) (min (2 ^ (8 * w - 1) - 1) v)

/-- `audioop.add`: per-sample saturating addition; both fragments must
have the same length. -/
def audioopAdd (a b : List ℤ) (w : ℕ) : Option (List ℤ) :=
  if a.length = b.length then some (List.zipWith (fun x y => clampW w (x + y)) a b)
  else none

/-- `audioop.max`: maximum absolute sample value. -/
def audioopMax (l : List ℤ) : ℤ :=
  l.foldl (fun acc v => max acc (v.natAbs : ℤ)) 0

/-- `audioop.mul`: per-sample scaling with clipping. -/
def audioopMul (l : List ℤ) (w : ℕ) (factor : ℚ) : List ℤ :=
  l.map (fun v => clampW w (pyInt (factor * (v : ℚ))))

/-- `audioop.lin2lin`: sample-width conversion by bit shifting. -/
def lin2lin (l : List ℤ) (w1 w2 : ℕ) : List ℤ :=
  if w1 ≤ w2 then l.map (fun v => v * 2 ^ (8 * (w2 - w1)))
  else l.map (fun v => Int.fdiv v (2 ^ (8 * (w1 - w2))))

/-- `audioop.tostereo`: duplicate each mono sample into a left/right pair
scaled by the given factors. -/
def tostereo (l : List ℤ) (w : ℕ) (lfac rfac : ℚ) : List ℤ :=
  l.foldr (fun v acc =>
    clampW w (pyInt (lfac * (v : ℚ))) :: clampW w (pyInt (rfac * (v : ℚ))) :: acc) []

/-- Modelled from the audioop documentation (external stdlib, not part of
this repository): linear sample-rate conversion.  No theorem below depends
on the sample values it produces, only on the branch structure around it
in `normalize`. -/
def ratecv (l : List ℤ) (w nch inrate outrate : ℕ) : List ℤ :=
  if nch = 0 ∨ inrate = 0 ∨ outrate = 0 then []
  else
    let nframes := l.length / nch
    (List.range (nframes * outrate / inrate)).foldr (fun j acc =>
      ((List.range nch).map (fun c => (l.get? (j * inrate / outrate * nch + c)).getD 0)) ++ acc) []

namespace Sample

/-- `Sample.normalize`: convert in place to 44100 Hz, 16-bit, stereo. -/
def normalize (s : Sample) : Except Err Sample :=
  if s.locked then .error .mutationOnLocked else
  let f1 := if s.samplerate ≠ norm_samplerate then
      ratecv s.frames s.sampwidth s.nchannels s.samplerate norm_samplerate
    else s.frames
  let r1 := if s.samplerate ≠ norm_samplerate then norm_samplerate else s.samplerate
  let f2 := if s.sampwidth ≠ norm_sampwidth then lin2lin f1 s.sampwidth norm_sampwidth else f1
  let w2 := if s.sampwidth ≠ norm_sampwidth then norm_sampwidth else s.sampwidth
  let f3 := if s.nchannels = 1 then tostereo f2 w2 1 1 else f2
  let c3 := if s.nchannels = 1 then 2 else s.nchannels
  .ok { samplerate := r1, nchannels := c3, sampwidth := w2, frames := f3, locked := s.locked }

/-- `Sample.get_32bit_frames`. -/
def get_32bit_frames (s : Sample) (scale_amplitude : Bool) : List ℤ :=
  if s.sampwidth = 4 then s.frames
  else
    let fr := lin2lin s.frames s.sampwidth 4
    if scale_amplitude then fr
    else audioopMul fr 4 (1 / 2 ^ (8 * ((s.sampwidth : ℤ) - 4).natAbs))

/-- `Sample.make_32bit`. -/
def make_32bit (s : Sample) (scale_amplitude : Bool) : Except Err Sample :=
  if s.locked then .error .mutationOnLocked
  else .ok { s with frames := get_32bit_frames s scale_amplitude, sampwidth := 4 }

/-- Body of `Sample.amplify_max` as a pure buffer transformation. -/
def amplifyMaxFrames (l : List ℤ) (w : ℕ) : List ℤ :=
  let max_amp := audioopMax l
  if max_amp > 0 then audioopMul l w (((2 ^ (8 * w - 1) - 2 : ℤ) : ℚ) / (max_amp : ℚ))
  else l

/-- `Sample.amplify_max`. -/
def amplify_max (s : Sample) : Except Err Sample :=
  if s.locked then .error .mutationOnLocked
  else .ok { s with frames := amplifyMaxFrames s.frames s.sampwidth }

/-- `Sample.make_16bit`. -/
def make_16bit (s : Sample) (maximize_amplitude : Bool) : Except Err Sample :=
  if s.locked then .error .mutationOnLocked
  else if ¬ 2 ≤ s.sampwidth then .error .assertionFailed
  else
    let f1 := if maximize_amplitude then amplifyMaxFrames s.frames s.sampwidth else s.frames
    if 2 < s.sampwidth then .ok { s with frames := lin2lin f1 s.sampwidth 2, sampwidth := 2 }
    else .ok { s with frames := f1 }

/-- `Sample.amplify(factor)`. -/
def amplify (s : Sample) (factor : ℚ) : Except Err Sample :=
  if s.locked then .error .mutationOnLocked
  else .ok { s with frames := audioopMul s.frames s.sampwidth factor }

/-- `Sample.cut(start_seconds, end_seconds)`.  Note the source only
re-assigns the buffer when the end byte offset differs from the current
byte length. -/
def cut (s : Sample) (start_seconds end_seconds : ℚ) : Except Err Sample :=
  if s.locked then .error .mutationOnLocked
  else if ¬ start_seconds < end_seconds then .error .assertionFailed
  else if s.frame_idx end_seconds ≠ ((s.sampwidth * s.frames.length : ℕ) : ℤ) then
    .ok { s with frames := pySlice s.frames (s.frameIdxS start_seconds) (s.frameIdxS end_seconds) }
  else .ok s

/-- `Sample.append(seconds)`: extend with `frame_idx seconds` zero bytes
(a negative repeat count yields the empty byte string, as in Python). -/
def append (s : Sample) (seconds : ℚ) : Except Err Sample :=
  if s.locked then .error .mutationOnLocked
  else .ok { s with frames := s.frames ++ List.replicate (s.frameIdxS seconds).toNat 0 }

/-- The other sample's contribution: `other.__frames[:other.frame_idx(other_seconds)]`
when `other_seconds` is truthy (not `None` and nonzero), else the whole buffer. -/
def truncOther (other : Sample) (other_seconds : Option ℚ) : List ℤ :=
  match other_seconds with
  | none => other.frames
  | some q => if q = 0 then other.frames else pySlice other.frames 0 (other.frameIdxS q)

/-- `Sample.mix(other, other_seconds, pad_shortest)`. -/
def mix (s other : Sample) (other_seconds : Option ℚ) (pad_shortest : Bool) : Except Err Sample :=
  if s.locked then .error .mutationOnLocked
  else if ¬ (s.sampwidth = other.sampwidth ∧ s.samplerate = other.samplerate ∧
      s.nchannels = other.nchannels) then .error .assertionFailed
  else
    let frames1 := s.frames
    let frames2 := truncOther other other_seconds
    let f1 := if pad_shortest ∧ frames1.length < frames2.length then
        frames1 ++ List.replicate (frames2.length - frames1.length) 0
      else frames1
    let f2 := if pad_shortest ∧ frames2.length < frames1.length then
        frames2 ++ List.replicate (frames1.length - frames2.length) 0
      else frames2
    match audioopAdd f1 f2 s.sampwidth with
    | none => .error .audioopError
    | some fr => .ok { s with frames := fr }

/-- `Sample._mix_join_frames`. -/
def joinFrames (pre mid post : List ℤ) : List ℤ :=
  if post ≠ [] then pre ++ mid ++ post
  else if mid ≠ [] then pre ++ mid
  else pre

/-- `Sample.mix_at(seconds, other, other_seconds)` including the
`_mix_grow_if_needed` / `_mix_split_frames` / `_mix_join_frames` helpers. -/
def mix_at (s : Sample) (seconds : ℚ) (other : Sample) (other_seconds : Option ℚ) :
    Except Err Sample :=
  if s.locked then .error .mutationOnLocked
  else if ¬ (s.sampwidth = other.sampwidth ∧ s.samplerate = other.samplerate ∧
      s.nchannels = other.nchannels) then .error .assertionFailed
  else
    let startIdx := s.frameIdxS seconds
    let otherFrames := truncOther other other_seconds
    let grown := if (s.frames.length : ℤ) < startIdx + otherFrames.length then
        s.frames ++ List.replicate (startIdx + otherFrames.length - s.frames.length).toNat 0
      else s.frames
    let pre := grown.take (pyIdx grown.length startIdx)
    let to_mix := pySlice grown startIdx (startIdx + otherFrames.length)
    let post := grown.drop (pyIdx grown.length (startIdx + otherFrames.length))
    match audioopAdd to_mix otherFrames s.sampwidth with
    | none => .error .audioopError
    | some mid => .ok { s with frames := joinFrames pre mid post }

end Sample

/-! ## Mixer -/

/-- A rhythm pattern: instrument name → ascii bar, in insertion order
(Python dicts iterate in insertion order). -/
abbrev Pattern := List (String × String)

structure Mixer where
  patterns : List Pattern
  bpm : ℕ
  ticks : ℕ
  instruments : List (String × Sample)

/-- A rest character in a bar (`bars[i] in ". "`). -/
def isRest (c : Char) : Bool := c == '.' || c == ' '

/-- The per-pattern validation loop of `Mixer.__init__`, carrying the
`bar_length` accumulator (initially 0).  `len(bars) % ticks` raises
`ZeroDivisionError` in Python when `ticks = 0`. -/
def checkBars (instruments : List (String × Sample)) (ticks : ℕ) :
    ℕ → Pattern → Except Err Unit
  | _, [] => .ok ()
  | barLength, (instrument, bars) :: rest =>
    if (instruments.lookup instrument).isNone then
      .error (.valueError ("instrument " ++ instrument ++ " not defined"))
    else if ticks = 0 then .error .zeroDivision
    else if bars.length % ticks ≠ 0 then
      .error (.valueError "bar length must be multiple of the number of ticks")
    else if 0 < barLength ∧ barLength ≠ bars.length then
      .error (.valueError "all bars must be of equal length in the same pattern")
    else checkBars instruments ticks bars.length rest

/-- Validation of every pattern, in order. -/
def checkPatterns (instruments : List (String × Sample)) (ticks : ℕ) :
    List Pattern → Except Err Unit
  | [] => .ok ()
  | p :: rest =>
    match checkBars instruments ticks 0 p with
    | .error e => .error e
    | .ok _ => checkPatterns instruments ticks rest

/-- `Mixer.__init__(patterns, bpm, ticks, instruments)`. -/
def mkMixer (patterns : List Pattern) (bpm ticks : ℕ)
    (instruments : List (String × Sample)) : Except Err Mixer :=
  match checkPatterns instruments ticks patterns with
  | .error e => .error e
  | .ok _ => .ok { patterns := patterns, bpm := bpm, ticks := ticks, instruments := instruments }

/-- The `total_seconds` accumulation loop at the start of `Mixer.mix`:
`next(iter(p.values()))` raises `StopIteration` on an empty pattern, and
`60.0 / bpm / ticks` raises `ZeroDivisionError` on a zero divisor. -/
def totalSecondsGo (bpm ticks : ℕ) (acc : ℚ) : List Pattern → Except Err ℚ
  | [] => .ok acc
  | p :: rest =>
    match p.head? with
    | none => .error .stopIteration
    | some pr =>
      if bpm = 0 ∨ ticks = 0 then .error .zeroDivision
      else totalSecondsGo bpm ticks
        (acc + (pr.2.length : ℚ) * 60 / (bpm : ℚ) / (ticks : ℚ)) rest

/-- `total_seconds` of `Mixer.mix`. -/
def totalSeconds (patterns : List Pattern) (bpm ticks : ℕ) : Except Err ℚ :=
  totalSecondsGo bpm ticks 0 patterns

/-- The trigger list of one tick position `i` of one pattern: the
`(instrument, sample)` pairs whose bar character at `i` is not a rest.
`bars[i]` raises `IndexError` out of range; the instrument-table lookup
raises `KeyError` when missing. -/
def triggersAt (instruments : List (String × Sample)) (i : ℕ) :
    Pattern → Except Err (List (String × Sample))
  | [] => .ok []
  | (instrument, bars) :: rest =>
    match bars.data.get? i with
    | none => .error .indexError
    | some c =>
      if isRest c then triggersAt instruments i rest
      else
        match instruments.lookup instrument with
        | none => .error .keyError
        | some sample =>
          match triggersAt instruments i rest with
          | .error e => .error e
          | .ok ts => .ok ((instrument, sample) :: ts)

/-- The inner tick loop of `Mixer.mixed_triggers` for one pattern:
`indices` is `range(num_triggers)`, the global tick index is
`startIndex + i`, and only non-empty trigger lists are emitted. -/
def patternTriggers (instruments : List (String × Sample)) (κ : ℚ) (p : Pattern)
    (startIndex : ℕ) : List ℕ → Except Err (List (ℕ × ℚ × List (String × Sample)))
  | [] => .ok []
  | i :: rest =>
    match triggersAt instruments i p with
    | .error e => .error e
    | .ok tr =>
      match patternTriggers instruments κ p startIndex rest with
      | .error e => .error e
      | .ok tail =>
        if tr ≠ [] then
          .ok ((startIndex + i, κ * ((startIndex + i : ℕ) : ℚ), tr) :: tail)
        else .ok tail

/-- The pattern loop of `Mixer.mixed_triggers`; `pattern[0]` raises
`IndexError` on an empty pattern, and the number of tick positions is the
length of the first instrument's bar. -/
def mixedTriggersGo (instruments : List (String × Sample)) (κ : ℚ) :
    ℕ → List Pattern → Except Err (List (ℕ × ℚ × List (String × Sample)))
  | _, [] => .ok []
  | index, p :: rest =>
    match p.head? with
    | none => .error .indexError
    | some pr =>
      match patternTriggers instruments κ p index (List.range pr.2.length) with
      | .error e => .error e
      | .ok here =>
        match mixedTriggersGo instruments κ (index + pr.2.length) rest with
        | .error e => .error e
        | .ok tail => .ok (here ++ tail)

/-- `Mixer.mixed_triggers`: all triggers in chronological order, with
`time_per_index = 60.0 / bpm / ticks`. -/
def Mixer.mixedTriggers (m : Mixer) : Except Err (List (ℕ × ℚ × List (String × Sample))) :=
  if m.bpm = 0 ∨ m.ticks = 0 then .error .zeroDivision
  else mixedTriggersGo m.instruments ((60 : ℚ) / (m.bpm : ℚ) / (m.ticks : ℚ)) 0 m.patterns

/-- Insertion into an ascending list of strings (for `sorted(...)`). -/
def insertSorted (x : String) : List String → List String
  | [] => [x]
  | y :: ys => if compare y x = Ordering.lt then y :: insertSorted x ys else x :: y :: ys

/-- Python `sorted` on instrument names (ascending). -/
def sortStrings : List String → List String
  | [] => []
  | x :: xs => insertSorted x (sortStrings xs)

/-- `max((s for _, s in triggers), key=lambda s: s.duration)`: Python's
`max` keeps the first of several maximal elements. -/
def longestSample (t0 : String × Sample) (rest : List (String × Sample)) : Sample :=
  rest.foldl (fun best x => if best.duration < x.2.duration then x.2 else best) t0.2

/-- The combination-mixing loop of `Mixer.mixed_samples`: mix every
triggering sample except the base into the accumulator.  The source skips
with `sample is longest_sample` (object identity); samples come from the
one instrument table, so identity is modelled as structural equality. -/
def mixTriggers (longest : Sample) : Sample → List (String × Sample) → Except Err Sample
  | acc, [] => .ok acc
  | acc, (_, smp) :: rest =>
    if smp = longest then mixTriggers longest acc rest
    else
      match acc.mix smp none true with
      | .error e => .error e
      | .ok acc' => mixTriggers longest acc' rest

/-- `Mixer.mixed_samples`, threading the per-render combination cache
(`mix_cache`, keyed by the sorted instrument-name tuple). -/
def mixedSamplesGo : List (List String × Sample) → List (ℕ × ℚ × List (String × Sample)) →
    Except Err (List (ℕ × ℚ × Sample))
  | _, [] => .ok []
  | cache, (index, ts, triggers) :: rest =>
    match triggers with
    | [] => .error .indexError
    | [t] =>
      match mixedSamplesGo cache rest with
      | .error e => .error e
      | .ok tail => .ok ((index, ts, t.2) :: tail)
    | t0 :: t1 :: trest =>
      let key := sortStrings ((t0 :: t1 :: trest).map (fun x => x.1))
      match cache.lookup key with
      | some smp =>
        match mixedSamplesGo cache rest with
        | .error e => .error e
        | .ok tail => .ok ((index, ts, smp) :: tail)
      | none =>
        let longest := longestSample t0 (t1 :: trest)
        match mixTriggers longest longest.dup (t0 :: t1 :: trest) with
        | .error e => .error e
        | .ok mixed =>
          match mixedSamplesGo ((key, mixed.lock) :: cache) rest with
          | .error e => .error e
          | .ok tail => .ok ((index, ts, mixed.lock) :: tail)

/-- `Mixer.mixed_samples`. -/
def Mixer.mixedSamples (m : Mixer) : Except Err (List (ℕ × ℚ × Sample)) :=
  match m.mixedTriggers with
  | .error e => .error e
  | .ok trs => mixedSamplesGo [] trs

/-- The accumulation loop of `Mixer.mix`:
`for index, timestamp, sample in mixed_samples: mixed.mix_at(timestamp, sample)`. -/
def foldMixAt : Sample → List (ℕ × ℚ × Sample) → Except Err Sample
  | acc, [] => .ok acc
  | acc, x :: rest =>
    match acc.mix_at x.2.1 x.2.2 none with
    | .error e => .error e
    | .ok acc2 => foldMixAt acc2 rest

/-- `Mixer.mix`: render all patterns into one sample.  An empty pattern
list short-circuits to a fresh default `Sample()`; otherwise a 32-bit
empty accumulator collects every trigger via `mix_at` and the result is
padded with silence or cut to `total_seconds`. -/
def Mixer.mix (m : Mixer) : Except Err Sample :=
  if m.patterns = [] then .ok (Sample.new [])
  else
    match totalSeconds m.patterns m.bpm m.ticks with
    | .error e => .error e
    | .ok total =>
      match (Sample.new []).make_32bit true with
      | .error e => .error e
      | .ok mixed0 =>
        match m.mixedSamples with
        | .error e => .error e
        | .ok samples =>
          match foldMixAt mixed0 samples with
          | .error e => .error e
          | .ok acc =>
            if 0 < total - acc.duration then acc.append (total - acc.duration)
            else if total - acc.duration < 0 then acc.cut 0 total
            else .ok acc

/-! ## Basic helper lemmas -/

/-- Whether an `Except` value is a success. -/
def exceptOk {α : Type} (e : Except Err α) : Bool :=
  match e with
  | .ok _ => true
  | .error _ => false

instance {ε α : Type} [DecidableEq ε] [DecidableEq α] : DecidableEq (Except ε α)
  | .ok x, .ok y =>
    if h : x = y then isTrue (by rw [h]) else isFalse (by intro hc; injection hc; contradiction)
  | .ok _, .error _ => isFalse (by intro hc; exact Except.noConfusion hc)
  | .error _, .ok _ => isFalse (by intro hc; exact Except.noConfusion hc)
  | .error d, .error e =>
    if h : d = e then isTrue (by rw [h]) else isFalse (by intro hc; injection hc; contradiction)

lemma pyInt_of_nonneg (q : ℚ) (h : 0 ≤ q) : pyInt q = ⌊q⌋ := if_pos h

lemma pyInt_natCast (n : ℕ) : pyInt (n : ℚ) = (n : ℤ) := by
  rw [pyInt_of_nonneg _ (Nat.cast_nonneg n)]
  exact Int.floor_natCast n

lemma pyInt_nonpos (q : ℚ) (h : q ≤ 0) : pyInt q ≤ 0 := by
  unfold pyInt
  split
  · next h' =>
    have hq : q = 0 := le_antisymm h h'
    simp [hq]
  · exact Int.ceil_le.mpr (by exact_mod_cast h)

lemma pyInt_nonneg (q : ℚ) (h : 0 ≤ q) : 0 ≤ pyInt q := by
  rw [pyInt_of_nonneg _ h]
  exact Int.floor_nonneg.mpr h

lemma joinFrames_eq (pre mid post : List ℤ) :
    Sample.joinFrames pre mid post = pre ++ mid ++ post := by
  unfold Sample.joinFrames
  split
  · rfl
  · next hpost =>
    have hp : post = [] := by simpa using hpost
    subst hp
    split
    · simp
    · next hmid =>
      have hm : mid = [] := by simpa using hmid
      subst hm
      simp

/-! ## Claim C6 -/

/-- Claim C6: for every Sample whose buffer length is a multiple of
`channels * sampwidth` (the documented Sample invariant) and whose format
attributes are positive, `frame_idx duration` equals the byte length of
the buffer: the duration-to-frame-offset round-trip is exact for the
sample's own length. -/
theorem C6_frame_idx_duration_roundtrip (s : Sample)
    (hr : 0 < s.samplerate) (hw : 0 < s.sampwidth) (hc : 0 < s.nchannels)
    (hdvd : s.nchannels * s.sampwidth ∣ s.sampwidth * s.frames.length) :
    s.frame_idx s.duration = ((s.sampwidth * s.frames.length : ℕ) : ℤ) := by
  obtain ⟨k, hk⟩ := hdvd
  have hrr : (s.samplerate : ℚ) ≠ 0 := Nat.cast_ne_zero.mpr hr.ne'
  have hww : (s.sampwidth : ℚ) ≠ 0 := Nat.cast_ne_zero.mpr hw.ne'
  have hcc : (s.nchannels : ℚ) ≠ 0 := Nat.cast_ne_zero.mpr hc.ne'
  have hq : (s.samplerate : ℚ) * s.duration = ((k : ℕ) : ℚ) := by
    unfold Sample.duration
    rw [hk]
    push_cast
    field_simp
    ring
  unfold Sample.frame_idx
  rw [hq, pyInt_natCast, hk]
  push_cast
  ring

/-- Witness for C6 at a concrete sample (8-byte stereo 16-bit buffer). -/
theorem C6_witness :
    0 < (44100 : ℕ) ∧ (2 * 2 : ℕ) ∣ (2 * 4 : ℕ) ∧
    (Sample.mk 44100 2 2 [1, 2, 3, 4] false).frame_idx
      (Sample.mk 44100 2 2 [1, 2, 3, 4] false).duration = ((2 * 4 : ℕ) : ℤ) := by
  refine ⟨by decide, by decide, ?_⟩
  exact C6_frame_idx_duration_roundtrip (Sample.mk 44100 2 2 [1, 2, 3, 4] false)
    (by decide) (by decide) (by decide) (by decide)

/-! ## Claim C2 -/

/-- Claim C2: every mutating operation on a locked Sample fails fast with
the mutation-on-locked error (the source's `assert not self.locked`, the
spec's `MutationOnLockedError`); since the check precedes any mutation,
no buffer or format change happens (the model returns no new sample). -/
theorem C2_locked_rejects_all (s : Sample) (h : s.locked = true)
    (b₁ b₂ : Bool) (f q₁ q₂ q₃ q₄ : ℚ) (o : Sample) (os₁ os₂ : Option ℚ) (ps : Bool) :
    s.normalize = .error .mutationOnLocked ∧
    s.make_32bit b₁ = .error .mutationOnLocked ∧
    s.make_16bit b₂ = .error .mutationOnLocked ∧
    s.amplify_max = .error .mutationOnLocked ∧
    s.amplify f = .error .mutationOnLocked ∧
    s.cut q₁ q₂ = .error .mutationOnLocked ∧
    s.append q₃ = .error .mutationOnLocked ∧
    s.mix o os₁ ps = .error .mutationOnLocked ∧
    s.mix_at q₄ o os₂ = .error .mutationOnLocked := by
  refine ⟨?_, ?_, ?_, ?_, ?_, ?_, ?_, ?_, ?_⟩ <;>
    simp [Sample.normalize, Sample.make_32bit, Sample.make_16bit, Sample.amplify_max,
      Sample.amplify, Sample.cut, Sample.append, Sample.mix, Sample.mix_at, h]

/-- Witness for C2 on a concrete locked sample. -/
theorem C2_witness :
    (Sample.mk 44100 2 2 [7] true).locked = true ∧
    (Sample.mk 44100 2 2 [7] true).normalize = .error .mutationOnLocked ∧
    (Sample.mk 44100 2 2 [7] true).cut 0 1 = .error .mutationOnLocked := by
  have h := C2_locked_rejects_all (Sample.mk 44100 2 2 [7] true) rfl
    true true 1 0 1 1 0 (Sample.new []) none none true
  exact ⟨rfl, h.1, h.2.2.2.2.2.2.1⟩

/-! ## Claim C9 -/

/-- Claim C9 counterexample: `append` with negative seconds raises no
error at all — it returns successfully with the buffer unchanged,
refuting the claimed `ValueRangeError`. -/
theorem C9_counterexample :
    Sample.append (Sample.mk 44100 2 2 [5] false) (-1) =
      .ok (Sample.mk 44100 2 2 [5] false) := by with_unfolding_all rfl

/-- Claim C9 as amended: on an unlocked Sample, `append` with negative
seconds is a silent no-op — the computed zero-fill byte count is
negative, Python's negative byte-string repeat yields the empty string,
and the call succeeds with the buffer unchanged; no error is raised. -/
theorem C9_amended_negative_append_noop (s : Sample) (sec : ℚ)
    (h : s.locked = false) (hneg : sec < 0) :
    s.append sec = .ok s := by
  have h1 : (s.samplerate : ℚ) * sec ≤ 0 :=
    mul_nonpos_iff.mpr (Or.inl ⟨Nat.cast_nonneg _, hneg.le⟩)
  have h2 : s.frameIdxS sec ≤ 0 := by
    unfold Sample.frameIdxS
    exact mul_nonpos_iff.mpr (Or.inl ⟨Int.natCast_nonneg _, pyInt_nonpos _ h1⟩)
  have h3 : (s.frameIdxS sec).toNat = 0 := Int.toNat_of_nonpos h2
  obtain ⟨sr, nc, sw, fr, lk⟩ := s
  simp only [Sample.locked] at h
  subst h
  simp [Sample.append, h3]

/-- Witness for C9's amended statement at a concrete input. -/
theorem C9_witness :
    (-2 : ℚ) < 0 ∧ Sample.append (Sample.mk 44100 2 2 [1, 2] false) (-2) =
      .ok (Sample.mk 44100 2 2 [1, 2] false) :=
  ⟨by norm_num, C9_amended_negative_append_noop _ _ rfl (by norm_num)⟩

/-! ## Claim C3 -/

/-- Claim C3 (code bug): `cut` only re-assigns the buffer when the end
byte offset differs from the current byte length, so a cut whose end
equals the buffer length but whose start is positive leaves the buffer
whole instead of truncating to the requested slice: here
`cut(1/44100, 2/44100)` on a 2-frame buffer returns the buffer unchanged
although the requested `[frame_idx start, frame_idx end)` slice is
`[3, 4]`. -/
theorem C3_cut_skips_when_end_equals_length :
    Sample.cut (Sample.mk 44100 2 2 [1, 2, 3, 4] false) (1/44100) (2/44100)
      = .ok (Sample.mk 44100 2 2 [1, 2, 3, 4] false) ∧
    pySlice [1, 2, 3, 4]
      ((Sample.mk 44100 2 2 [1, 2, 3, 4] false).frameIdxS (1/44100))
      ((Sample.mk 44100 2 2 [1, 2, 3, 4] false).frameIdxS (2/44100)) = [3, 4] :=
  ⟨by with_unfolding_all rfl, by with_unfolding_all rfl⟩

/-! ## Claim C4 -/

lemma checkBars_cons_ok {instr : List (String × Sample)} {ticks acc : ℕ}
    {i b : String} {rest : Pattern}
    (h : checkBars instr ticks acc ((i, b) :: rest) = .ok ()) :
    (instr.lookup i).isSome ∧ ticks ≠ 0 ∧ b.length % ticks = 0 ∧
    ¬(0 < acc ∧ acc ≠ b.length) ∧ checkBars instr ticks b.length rest = .ok () := by
  rw [checkBars] at h
  split_ifs at h with h1 h2 h3 h4
  refine ⟨?_, h2, by simpa using h3, h4, h⟩
  cases hl : instr.lookup i <;> simp_all

lemma checkBars_ok_entries (instr : List (String × Sample)) (ticks : ℕ) (p : Pattern) :
    ∀ acc, checkBars instr ticks acc p = .ok () →
      ∀ pr ∈ p, (instr.lookup (pr : String × String).1).isSome ∧ ticks ≠ 0 ∧
        pr.2.length % ticks = 0 := by
  induction p with
  | nil => intro acc _ pr hpr; exact absurd hpr (List.not_mem_nil pr)
  | cons hd rest ih =>
    intro acc h pr hpr
    obtain ⟨i, b⟩ := hd
    obtain ⟨h1, h2, h3, _, h5⟩ := checkBars_cons_ok h
    rcases List.mem_cons.mp hpr with hpr | hpr
    · subst hpr; exact ⟨h1, h2, h3⟩
    · exact ih b.length h5 pr hpr

lemma checkBars_ok_fixed_len (instr : List (String × Sample)) (ticks : ℕ) (p : Pattern) :
    ∀ acc, checkBars instr ticks acc p = .ok () →
      ∀ pr ∈ p, (pr : String × String).2.length ≠ 0 → 0 < acc → pr.2.length = acc := by
  induction p with
  | nil => intro acc _ pr hpr; exact absurd hpr (List.not_mem_nil pr)
  | cons hd rest ih =>
    intro acc h pr hpr hne hacc
    obtain ⟨i, b⟩ := hd
    obtain ⟨_, _, _, h4, h5⟩ := checkBars_cons_ok h
    have hacc_b : acc = b.length := by
      by_contra hne2
      exact h4 ⟨hacc, hne2⟩
    rcases List.mem_cons.mp hpr with hpr | hpr
    · subst hpr; exact hacc_b.symm
    · have hb : 0 < b.length := hacc_b ▸ hacc
      rw [ih b.length h5 pr hpr hne hb]
      exact hacc_b.symm

lemma checkBars_ok_equal_lens (instr : List (String × Sample)) (ticks : ℕ) (p : Pattern) :
    ∀ acc, checkBars instr ticks acc p = .ok () →
      ∀ pr1 ∈ p, ∀ pr2 ∈ p, (pr1 : String × String).2.length ≠ 0 →
        (pr2 : String × String).2.length ≠ 0 → pr1.2.length = pr2.2.length := by
  induction p with
  | nil => intro acc _ pr1 hpr1; exact absurd hpr1 (List.not_mem_nil pr1)
  | cons hd rest ih =>
    intro acc h pr1 hpr1 pr2 hpr2 hne1 hne2
    obtain ⟨i, b⟩ := hd
    obtain ⟨_, _, _, _, h5⟩ := checkBars_cons_ok h
    rcases List.mem_cons.mp hpr1 with hpr1 | hpr1 <;>
      rcases List.mem_cons.mp hpr2 with hpr2 | hpr2
    · subst hpr1; subst hpr2; rfl
    · subst hpr1
      exact (checkBars_ok_fixed_len instr ticks rest b.length h5 pr2 hpr2 hne2
        (Nat.pos_of_ne_zero hne1)).symm
    · subst hpr2
      exact checkBars_ok_fixed_len instr ticks rest b.length h5 pr1 hpr1 hne1
        (Nat.pos_of_ne_zero hne2)
    · exact ih b.length h5 pr1 hpr1 pr2 hpr2 hne1 hne2

lemma checkPatterns_ok (instr : List (String × Sample)) (ticks : ℕ) (ps : List Pattern) :
    checkPatterns instr ticks ps = .ok () → ∀ p ∈ ps, checkBars instr ticks 0 p = .ok () := by
  induction ps with
  | nil => intro _ p hp; exact absurd hp (List.not_mem_nil p)
  | cons q rest ih =>
    intro h p hp
    rw [checkPatterns] at h
    cases hq : checkBars instr ticks 0 q with
    | error e => rw [hq] at h; exact absurd h (by simp)
    | ok u =>
      rw [hq] at h
      rcases List.mem_cons.mp hp with hp | hp
      · subst hp; cases u; exact hq
      · exact ih h p hp

lemma mkMixer_ok (ps : List Pattern) (bpm ticks : ℕ) (instr : List (String × Sample)) :
    exceptOk (mkMixer ps bpm ticks instr) = true → checkPatterns instr ticks ps = .ok () := by
  intro h
  unfold mkMixer at h
  cases hq : checkPatterns instr ticks ps with
  | error e => rw [hq] at h; simp [exceptOk] at h
  | ok u => cases u; rfl

/-- Claim C4 counterexample: a pattern whose only bar is the empty string
is accepted by Mixer construction — `len("") % ticks = 0` passes the
multiple-of-ticks check because 0 is a multiple of ticks, so a
zero-length bar is NOT rejected, refuting "a bar whose length is not a
positive multiple of ticks is rejected". -/
theorem C4_counterexample_empty_bar :
    ("" : String).length = 0 ∧
    exceptOk (mkMixer [[("a", "")]] 120 4 [("a", Sample.new [])]) = true :=
  ⟨rfl, by with_unfolding_all rfl⟩

lemma checkBars_ok_chain (instr : List (String × Sample)) (ticks : ℕ) (p : Pattern) :
    ∀ acc, checkBars instr ticks acc p = .ok () →
      List.Chain' (fun a b => a = 0 ∨ a = b)
        (acc :: p.map (fun pr => pr.2.length)) := by
  induction p with
  | nil => intro acc _; exact List.chain'_singleton acc
  | cons hd rest ih =>
    intro acc h
    obtain ⟨i, b⟩ := hd
    obtain ⟨_, _, _, h4, h5⟩ := checkBars_cons_ok h
    rw [List.map_cons, List.chain'_cons]
    refine ⟨?_, ih b.length h5⟩
    by_cases ha : acc = 0
    · exact Or.inl ha
    · right
      by_contra hne
      exact h4 ⟨Nat.pos_of_ne_zero ha, hne⟩

lemma checkBars_ok_of (instr : List (String × Sample)) (ticks : ℕ) (p : Pattern) :
    ∀ acc,
      (∀ pr ∈ p, (instr.lookup (pr : String × String).1).isSome ∧ ticks ≠ 0 ∧
        (pr : String × String).2.length % ticks = 0) →
      List.Chain' (fun a b => a = 0 ∨ a = b)
        (acc :: p.map (fun pr => pr.2.length)) →
      checkBars instr ticks acc p = .ok () := by
  induction p with
  | nil => intro acc _ _; rw [checkBars]
  | cons hd rest ih =>
    intro acc hck hch
    obtain ⟨i, b⟩ := hd
    obtain ⟨hsome, hticks, hmod⟩ := hck (i, b) (List.mem_cons_self _ _)
    rw [List.map_cons, List.chain'_cons] at hch
    obtain ⟨hpair, hch2⟩ := hch
    have hpair2 : acc = 0 ∨ acc = b.length := hpair
    have h1 : (instr.lookup i).isNone = false := by
      cases hx : instr.lookup i <;> simp_all
    rw [checkBars, if_neg (by simp [h1]), if_neg hticks, if_neg (by simp [hmod]),
      if_neg (by rcases hpair2 with h | h <;> omega)]
    exact ih b.length (fun pr hpr => hck pr (List.mem_cons_of_mem _ hpr)) hch2

lemma checkPatterns_ok_of (instr : List (String × Sample)) (ticks : ℕ) :
    ∀ ps : List Pattern, (∀ p ∈ ps, checkBars instr ticks 0 p = .ok ()) →
      checkPatterns instr ticks ps = .ok () := by
  intro ps
  induction ps with
  | nil => intro _; rw [checkPatterns]
  | cons q rest ih =>
    intro h
    rw [checkPatterns, h q (List.mem_cons_self _ _)]
    exact ih (fun p hp => h p (List.mem_cons_of_mem _ hp))

/-- Exact characterization of `Mixer.__init__` acceptance: construction
succeeds iff, for every pattern, every referenced instrument exists,
`ticks` is nonzero, every bar length is a multiple of `ticks`, and every
bar that immediately follows a nonzero-length bar has that same length
(the `bar_length` accumulator only binds on nonzero lengths). -/
lemma mkMixer_ok_iff (ps : List Pattern) (bpm ticks : ℕ)
    (instr : List (String × Sample)) :
    exceptOk (mkMixer ps bpm ticks instr) = true ↔ ∀ p ∈ ps,
      (∀ pr ∈ p, (instr.lookup (pr : String × String).1).isSome ∧ ticks ≠ 0 ∧
        (pr : String × String).2.length % ticks = 0) ∧
      List.Chain' (fun a b => a = 0 ∨ a = b) (p.map (fun pr => pr.2.length)) := by
  constructor
  · intro h p hp
    have hcb := checkPatterns_ok instr ticks ps (mkMixer_ok ps bpm ticks instr h) p hp
    refine ⟨fun pr hpr => checkBars_ok_entries instr ticks p 0 hcb pr hpr, ?_⟩
    exact (checkBars_ok_chain instr ticks p 0 hcb).tail
  · intro h
    have hcp : checkPatterns instr ticks ps = .ok () := by
      apply checkPatterns_ok_of
      intro p hp
      apply checkBars_ok_of instr ticks p 0 (h p hp).1
      rw [List.chain'_cons']
      exact ⟨fun y _ => Or.inl rfl, (h p hp).2⟩
    unfold mkMixer
    rw [hcp]
    rfl

/-- Claim C4 as amended: Mixer construction raises a configuration error
whenever any pattern references an instrument absent from the table,
whenever any bar length is not a multiple of ticks, and whenever one
pattern contains two bars of unequal nonzero length.  Contrary to the
claim, a pattern containing a zero-length (empty) bar is not always
rejected: 0 is a multiple of ticks, and construction succeeds exactly
when, for each pattern, every instrument exists, ticks is nonzero, every
bar length is a multiple of ticks, and each bar immediately following a
nonzero-length bar has that same length — so a pattern whose only bar is
empty, or whose empty bars all precede its nonzero bars, is accepted,
while an empty bar immediately after a nonzero-length bar is rejected by
the equal-length check. -/
theorem C4_amended_validation (ps : List Pattern) (bpm ticks : ℕ)
    (instr : List (String × Sample)) :
    ((∃ p ∈ ps, ∃ pr ∈ p, instr.lookup (pr : String × String).1 = none) →
        exceptOk (mkMixer ps bpm ticks instr) = false) ∧
    ((∃ p ∈ ps, ∃ pr ∈ p, (pr : String × String).2.length % ticks ≠ 0) →
        exceptOk (mkMixer ps bpm ticks instr) = false) ∧
    ((∃ p ∈ ps, ∃ pr1 ∈ p, ∃ pr2 ∈ p, (pr1 : String × String).2.length ≠
        (pr2 : String × String).2.length ∧ pr1.2.length ≠ 0 ∧ pr2.2.length ≠ 0) →
        exceptOk (mkMixer ps bpm ticks instr) = false) ∧
    (exceptOk (mkMixer ps bpm ticks instr) = true ↔ ∀ p ∈ ps,
      (∀ pr ∈ p, (instr.lookup (pr : String × String).1).isSome ∧ ticks ≠ 0 ∧
        (pr : String × String).2.length % ticks = 0) ∧
      List.Chain' (fun a b => a = 0 ∨ a = b) (p.map (fun pr => pr.2.length))) := by
  have hok : ∀ (h : exceptOk (mkMixer ps bpm ticks instr) ≠ false),
      ∀ p ∈ ps, checkBars instr ticks 0 p = .ok () := by
    intro h
    have h' : exceptOk (mkMixer ps bpm ticks instr) = true := by
      revert h; cases exceptOk (mkMixer ps bpm ticks instr) <;> simp
    exact checkPatterns_ok instr ticks ps (mkMixer_ok ps bpm ticks instr h')
  refine ⟨?_, ?_, ?_, mkMixer_ok_iff ps bpm ticks instr⟩
  · rintro ⟨p, hp, pr, hpr, hnone⟩
    by_contra hneq
    have := (checkBars_ok_entries instr ticks p 0 (hok hneq p hp) pr hpr).1
    rw [hnone] at this
    simp at this
  · rintro ⟨p, hp, pr, hpr, hmod⟩
    by_contra hneq
    exact hmod (checkBars_ok_entries instr ticks p 0 (hok hneq p hp) pr hpr).2.2
  · rintro ⟨p, hp, pr1, hpr1, pr2, hpr2, hne, hz1, hz2⟩
    by_contra hneq
    exact hne (checkBars_ok_equal_lens instr ticks p 0 (hok hneq p hp) pr1 hpr1 pr2 hpr2 hz1 hz2)

/-- Witness for C4's amended statement: a bar of length 3 with 4 ticks is
rejected, and a pattern whose empty bar precedes a full bar is accepted. -/
theorem C4_witness :
    ("xxx" : String).length % 4 ≠ 0 ∧
    exceptOk (mkMixer [[("a", "xxx")]] 120 4 [("a", Sample.new [])]) = false ∧
    exceptOk (mkMixer [[("a", ""), ("b", "xxxx")]] 120 4
      [("a", Sample.new []), ("b", Sample.new [])]) = true := by
  refine ⟨by decide, ?_, ?_⟩
  · exact (C4_amended_validation [[("a", "xxx")]] 120 4 [("a", Sample.new [])]).2.1
      ⟨[("a", "xxx")], by simp, ("a", "xxx"), by simp, by decide⟩
  · apply (C4_amended_validation [[("a", ""), ("b", "xxxx")]] 120 4
      [("a", Sample.new []), ("b", Sample.new [])]).2.2.2.mpr
    intro p hp
    have hp2 := List.mem_singleton.mp hp
    subst hp2
    constructor
    · intro pr hpr
      rcases List.mem_cons.mp hpr with h | h
      · subst h
        exact ⟨by decide, by decide, by decide⟩
      · have h2 := List.mem_singleton.mp h
        subst h2
        exact ⟨by decide, by decide, by decide⟩
    · exact List.chain'_cons.mpr ⟨Or.inl rfl, List.chain'_singleton _⟩

/-! ## Claim C8 -/

/-- Normal form of `mix` with no truncation and `pad_shortest = true`:
both buffers are padded to the common maximum and summed per sample
(padding the longer one appends nothing). -/
lemma mix_none_true_eq (a b : Sample) (ha : a.locked = false)
    (hw : a.sampwidth = b.sampwidth) (hr : a.samplerate = b.samplerate)
    (hc : a.nchannels = b.nchannels) :
    a.mix b none true = .ok (Sample.mk a.samplerate a.nchannels a.sampwidth
      (List.zipWith (fun x y => clampW a.sampwidth (x + y))
        (a.frames ++ List.replicate (b.frames.length - a.frames.length) 0)
        (b.frames ++ List.replicate (a.frames.length - b.frames.length) 0)) a.locked) := by
  unfold Sample.mix
  rw [if_neg (by simp [ha]), if_neg (by simp [hw, hr, hc])]
  simp only [Sample.truncOther, true_and]
  rcases Nat.lt_trichotomy a.frames.length b.frames.length with hlt | heq | hgt
  · rw [if_pos hlt, if_neg (by omega)]
    rw [audioopAdd, if_pos (by simp; omega)]
    have h0 : a.frames.length - b.frames.length = 0 := by omega
    simp [h0]
  · rw [if_neg (by omega), if_neg (by omega)]
    rw [audioopAdd, if_pos (by omega)]
    have h0 : a.frames.length - b.frames.length = 0 := by omega
    have h1 : b.frames.length - a.frames.length = 0 := by omega
    simp [h0, h1]
  · rw [if_neg (by omega), if_pos hgt]
    rw [audioopAdd, if_pos (by simp; omega)]
    have h1 : b.frames.length - a.frames.length = 0 := by omega
    simp [h1]

/-- Claim C8: for unlocked, format-compatible samples, `mix` with
`pad_shortest = true` produces a buffer whose byte length is the maximum
of the two input byte lengths, and for equal-length buffers the summed
contents are commutative: `A.mix(B)` and `B.mix(A)` agree. -/
theorem C8_mix_length_comm (a b c d : Sample) (ha : a.locked = false) (hb : b.locked = false)
    (hw : a.sampwidth = b.sampwidth) (hr : a.samplerate = b.samplerate)
    (hc : a.nchannels = b.nchannels) (hmix : a.mix b none true = .ok c) :
    c.sampwidth * c.frames.length =
      max (a.sampwidth * a.frames.length) (b.sampwidth * b.frames.length) ∧
    (a.frames.length = b.frames.length → b.mix a none true = .ok d →
      d.frames = c.frames) := by
  rw [mix_none_true_eq a b ha hw hr hc] at hmix
  injection hmix with hcc
  constructor
  · have hlen : c.frames.length = max a.frames.length b.frames.length := by
      rw [← hcc]
      simp only [List.length_zipWith, List.length_append, List.length_replicate]
      omega
    have hsw : c.sampwidth = a.sampwidth := by rw [← hcc]
    rw [hsw, hlen, ← hw]
    rcases le_total a.frames.length b.frames.length with h | h
    · rw [max_eq_right h, max_eq_right (Nat.mul_le_mul_left _ h)]
    · rw [max_eq_left h, max_eq_left (Nat.mul_le_mul_left _ h)]
  · intro hlen hmix2
    rw [mix_none_true_eq b a hb hw.symm hr.symm hc.symm] at hmix2
    injection hmix2 with hdd
    rw [← hdd, ← hcc]
    simp only [hlen, Nat.sub_self, List.replicate_zero, List.append_nil, ← hw]
    exact List.zipWith_comm_of_comm _ (fun x y => by rw [Int.add_comm]) _ _

/-- Witness for C8 with two concrete equal-length stereo buffers. -/
theorem C8_witness :
    (Sample.mk 44100 2 2 [1, 2] false).mix (Sample.mk 44100 2 2 [3, 4] false) none true
      = .ok (Sample.mk 44100 2 2 [4, 6] false) ∧
    (Sample.mk 44100 2 2 [4, 6] false).sampwidth *
        (Sample.mk 44100 2 2 [4, 6] false).frames.length =
      max ((Sample.mk 44100 2 2 [1, 2] false).sampwidth *
          (Sample.mk 44100 2 2 [1, 2] false).frames.length)
        ((Sample.mk 44100 2 2 [3, 4] false).sampwidth *
          (Sample.mk 44100 2 2 [3, 4] false).frames.length) ∧
    (Sample.mk 44100 2 2 [4, 6] false).frames = (Sample.mk 44100 2 2 [4, 6] false).frames := by
  have h1 : (Sample.mk 44100 2 2 [1, 2] false).mix (Sample.mk 44100 2 2 [3, 4] false) none true
      = .ok (Sample.mk 44100 2 2 [4, 6] false) := by with_unfolding_all rfl
  have h2 : (Sample.mk 44100 2 2 [3, 4] false).mix (Sample.mk 44100 2 2 [1, 2] false) none true
      = .ok (Sample.mk 44100 2 2 [4, 6] false) := by with_unfolding_all rfl
  have h := C8_mix_length_comm (Sample.mk 44100 2 2 [1, 2] false)
    (Sample.mk 44100 2 2 [3, 4] false) (Sample.mk 44100 2 2 [4, 6] false)
    (Sample.mk 44100 2 2 [4, 6] false) rfl rfl rfl rfl rfl h1
  exact ⟨h1, h.1, h.2 rfl h2⟩

/-! ## Claim C7 -/

/-- Claim C7: `normalize` is idempotent — if one application of
`normalize` on an unlocked Sample (with the admissible 1- or 2-channel
count) yields `t`, a second application returns `t` itself, with the
canonical format attributes 44100 Hz, 2 channels, 2-byte width. -/
theorem C7_normalize_idempotent (s t : Sample) (hl : s.locked = false)
    (hch : s.nchannels = 1 ∨ s.nchannels = 2) (h : s.normalize = .ok t) :
    t.normalize = .ok t ∧ t.samplerate = 44100 ∧ t.nchannels = 2 ∧ t.sampwidth = 2 ∧
    t.locked = false := by
  unfold Sample.normalize at h
  rw [if_neg (by simp [hl])] at h
  injection h with h
  have hr : t.samplerate = 44100 := by
    rw [← h]
    by_cases hx : s.samplerate = norm_samplerate <;> simp [hx, norm_samplerate]
  have hw : t.sampwidth = 2 := by
    rw [← h]
    by_cases hx : s.sampwidth = norm_sampwidth <;> simp [hx, norm_sampwidth]
  have hc : t.nchannels = 2 := by
    rw [← h]
    rcases hch with h1 | h1 <;> simp [h1]
  have hlk : t.locked = false := by
    rw [← h]
    simp [hl]
  refine ⟨?_, hr, hc, hw, hlk⟩
  obtain ⟨tr, tc, tw, tf, tl⟩ := t
  simp only at hr hw hc hlk
  subst hr
  subst hw
  subst hc
  subst hlk
  unfold Sample.normalize
  simp [norm_samplerate, norm_sampwidth]

/-- Witness for C7 on a concrete already-normalized sample. -/
theorem C7_witness :
    (Sample.mk 44100 2 2 [9] false).normalize = .ok (Sample.mk 44100 2 2 [9] false) ∧
    (Sample.mk 44100 2 2 [9] false).samplerate = 44100 ∧
    (Sample.mk 44100 2 2 [9] false).nchannels = 2 ∧
    (Sample.mk 44100 2 2 [9] false).sampwidth = 2 := by
  have h0 : (Sample.mk 44100 2 2 [9] false).normalize = .ok (Sample.mk 44100 2 2 [9] false) := by
    with_unfolding_all rfl
  have h := C7_normalize_idempotent (Sample.mk 44100 2 2 [9] false)
    (Sample.mk 44100 2 2 [9] false) rfl (Or.inr rfl) h0
  exact ⟨h.1, h.2.1, h.2.2.1, h.2.2.2.1⟩

/-! ## Claim C5 -/

lemma frameIdxS_nonneg (s : Sample) (sec : ℚ) (h : 0 ≤ sec) : 0 ≤ s.frameIdxS sec := by
  unfold Sample.frameIdxS
  have h1 : 0 ≤ (s.samplerate : ℚ) * sec := mul_nonneg (Nat.cast_nonneg _) h
  exact mul_nonneg (Int.natCast_nonneg _) (pyInt_nonneg _ h1)

lemma pyIdx_natCast (n m : ℕ) : pyIdx n (m : ℤ) = min m n := by
  unfold pyIdx
  rw [if_neg (by omega), Int.toNat_natCast]

/-- Normal form of `mix_at` with no truncation and a non-negative offset:
grow with trailing zeros up to `start + olen` samples if needed, then sum
exactly the region `[start, start + olen)` with the other buffer, keeping
everything outside it. -/
lemma mix_at_none_eq (s other : Sample) (sec : ℚ) (hl : s.locked = false)
    (hw : s.sampwidth = other.sampwidth) (hr : s.samplerate = other.samplerate)
    (hc : s.nchannels = other.nchannels) (hsec : 0 ≤ sec) :
    s.mix_at sec other none = .ok (Sample.mk s.samplerate s.nchannels s.sampwidth
      ((s.frames ++ List.replicate ((s.frameIdxS sec).toNat + other.frames.length
          - s.frames.length) 0).take (s.frameIdxS sec).toNat ++
        List.zipWith (fun x y => clampW s.sampwidth (x + y))
          (((s.frames ++ List.replicate ((s.frameIdxS sec).toNat + other.frames.length
              - s.frames.length) 0).drop (s.frameIdxS sec).toNat).take other.frames.length)
          other.frames ++
        (s.frames ++ List.replicate ((s.frameIdxS sec).toNat + other.frames.length
          - s.frames.length) 0).drop ((s.frameIdxS sec).toNat + other.frames.length))
      s.locked) := by
  have hsi : s.frameIdxS sec = ((s.frameIdxS sec).toNat : ℤ) :=
    (Int.toNat_of_nonneg (frameIdxS_nonneg s sec hsec)).symm
  set st := (s.frameIdxS sec).toNat with hst
  set olen := other.frames.length with holen
  set gr : List ℤ := s.frames ++ List.replicate (st + olen - s.frames.length) 0 with hgr
  have hglen : gr.length = max s.frames.length (st + olen) := by
    rw [hgr]
    simp only [List.length_append, List.length_replicate]
    omega
  unfold Sample.mix_at
  rw [if_neg (by simp [hl]), if_neg (by simp [hw, hr, hc])]
  simp only [Sample.truncOther]
  rw [hsi]
  have hsum : (st : ℤ) + (other.frames.length : ℕ) = ((st + olen : ℕ) : ℤ) := by
    rw [← holen]; push_cast; ring
  rw [hsum]
  have hGrown : (if (s.frames.length : ℤ) < ((st + olen : ℕ) : ℤ) then
      s.frames ++ List.replicate ((((st + olen : ℕ) : ℤ) - s.frames.length).toNat) 0
      else s.frames) = gr := by
    rw [hgr]
    split
    · next hlt =>
      have he : (((st + olen : ℕ) : ℤ) - s.frames.length).toNat = st + olen - s.frames.length := by
        omega
      rw [he]
    · next hge =>
      have he : st + olen - s.frames.length = 0 := by omega
      rw [he]
      simp
  rw [hGrown]
  have h1 : pyIdx gr.length ((st : ℕ) : ℤ) = st := by
    rw [pyIdx_natCast, hglen]
    omega
  have h2 : pyIdx gr.length ((st + olen : ℕ) : ℤ) = st + olen := by
    rw [pyIdx_natCast, hglen]
    omega
  have hslice : pySlice gr ((st : ℕ) : ℤ) ((st + olen : ℕ) : ℤ) = (gr.drop st).take olen := by
    unfold pySlice
    rw [h1, h2, List.drop_take]
    congr 1
    omega
  have hsublen : ((gr.drop st).take olen).length = olen := by
    simp only [List.length_take, List.length_drop, hglen]
    omega
  have hadd : audioopAdd (pySlice gr ((st : ℕ) : ℤ) ((st + olen : ℕ) : ℤ)) other.frames
      s.sampwidth = some (List.zipWith (fun x y => clampW s.sampwidth (x + y))
        ((gr.drop st).take olen) other.frames) := by
    rw [hslice]
    unfold audioopAdd
    rw [if_pos (by rw [hsublen, holen])]
  rw [hadd]
  simp only []
  rw [joinFrames_eq, h1, h2]

/-- Claim C5: `mix_at(offsetSeconds, other)` on an unlocked,
format-compatible sample with a non-negative offset first grows the
buffer with trailing zeros when `start + olen` exceeds its length, then
sums exactly the region `[start, start + olen)` with the other buffer,
and leaves every sample outside that region equal to the grown buffer's
(`start` and `olen` are the frame offset and the other buffer's length;
all quantities are in `sampwidth`-byte samples, i.e. bytes divided by the
common width). -/
theorem C5_mix_at_region (s other : Sample) (sec : ℚ) (start olen : ℕ) (grown : List ℤ)
    (s' : Sample) (hl : s.locked = false) (hw : s.sampwidth = other.sampwidth)
    (hr : s.samplerate = other.samplerate) (hc : s.nchannels = other.nchannels)
    (hsec : 0 ≤ sec) (hstart : (s.frameIdxS sec).toNat = start)
    (holen : other.frames.length = olen)
    (hgrown : grown = s.frames ++ List.replicate (start + olen - s.frames.length) 0)
    (hok : s.mix_at sec other none = .ok s') :
    s'.frames.length = max s.frames.length (start + olen) ∧
    s'.frames.take start = grown.take start ∧
    s'.frames.drop (start + olen) = grown.drop (start + olen) ∧
    (s'.frames.drop start).take olen =
      List.zipWith (fun x y => clampW s.sampwidth (x + y))
        ((grown.drop start).take olen) other.frames ∧
    s'.samplerate = s.samplerate ∧ s'.nchannels = s.nchannels ∧
    s'.sampwidth = s.sampwidth ∧ s'.locked = false := by
  rw [mix_at_none_eq s other sec hl hw hr hc hsec] at hok
  injection hok with hok
  rw [hstart, holen, ← hgrown] at hok
  have hglen : grown.length = max s.frames.length (start + olen) := by
    rw [hgrown]
    simp only [List.length_append, List.length_replicate]
    omega
  have hpre : (grown.take start).length = start := by
    simp only [List.length_take, hglen]
    omega
  have hmidlen : (List.zipWith (fun x y => clampW s.sampwidth (x + y))
      ((grown.drop start).take olen) other.frames).length = olen := by
    simp only [List.length_zipWith, List.length_take, List.length_drop, hglen, holen]
    omega
  have hfr : s'.frames = grown.take start ++
      List.zipWith (fun x y => clampW s.sampwidth (x + y))
        ((grown.drop start).take olen) other.frames ++
      grown.drop (start + olen) := by rw [← hok]
  refine ⟨?_, ?_, ?_, ?_, by rw [← hok], by rw [← hok], by rw [← hok], by rw [← hok, hl]⟩
  · rw [hfr]
    simp only [List.length_append, hpre, hmidlen, List.length_drop, hglen]
    omega
  · rw [hfr, List.append_assoc, List.take_append_of_le_length (by simp [hpre])]
    simp [List.take_take]
  · rw [hfr]
    have hlen2 : (grown.take start ++
        List.zipWith (fun x y => clampW s.sampwidth (x + y))
          ((grown.drop start).take olen) other.frames).length = start + olen := by
      simp only [List.length_append, hpre, hmidlen]
    have h3 := List.drop_left (grown.take start ++
      List.zipWith (fun x y => clampW s.sampwidth (x + y))
        ((grown.drop start).take olen) other.frames) (grown.drop (start + olen))
    rw [hlen2] at h3
    exact h3
  · rw [hfr, List.append_assoc]
    have h4 := List.drop_left (grown.take start)
      (List.zipWith (fun x y => clampW s.sampwidth (x + y))
        ((grown.drop start).take olen) other.frames ++ grown.drop (start + olen))
    rw [hpre] at h4
    rw [h4]
    have h5 := List.take_left (List.zipWith (fun x y => clampW s.sampwidth (x + y))
        ((grown.drop start).take olen) other.frames) (grown.drop (start + olen))
    rw [hmidlen] at h5
    exact h5

/-- Witness for C5 at a concrete sample, offset one frame (two samples)
into a four-sample stereo buffer. -/
theorem C5_witness :
    (0 : ℚ) ≤ 1/44100 ∧
    ((Sample.mk 44100 2 4 [1, 2, 3, 4] false).frameIdxS (1/44100)).toNat = 2 ∧
    (Sample.mk 44100 2 4 [1, 2, 3, 4] false).mix_at (1/44100)
      (Sample.mk 44100 2 4 [10, 20] false) none = .ok (Sample.mk 44100 2 4 [1, 2, 13, 24] false) ∧
    (Sample.mk 44100 2 4 [1, 2, 13, 24] false).frames.take 2 = [1, 2] := by
  have hok : (Sample.mk 44100 2 4 [1, 2, 3, 4] false).mix_at (1/44100)
      (Sample.mk 44100 2 4 [10, 20] false) none
      = .ok (Sample.mk 44100 2 4 [1, 2, 13, 24] false) := by with_unfolding_all rfl
  have h := C5_mix_at_region (Sample.mk 44100 2 4 [1, 2, 3, 4] false)
    (Sample.mk 44100 2 4 [10, 20] false) (1/44100) 2 2 [1, 2, 3, 4]
    (Sample.mk 44100 2 4 [1, 2, 13, 24] false) rfl rfl rfl rfl (by norm_num)
    (by with_unfolding_all rfl) rfl (by with_unfolding_all rfl) hok
  exact ⟨by norm_num, by with_unfolding_all rfl, hok, h.2.1⟩

/-! ## Claim C10 -/

lemma mix_at_ok_fields {s o s' : Sample} {sec : ℚ} {os : Option ℚ}
    (h : s.mix_at sec o os = .ok s') :
    s'.samplerate = s.samplerate ∧ s'.nchannels = s.nchannels ∧
    s'.sampwidth = s.sampwidth ∧ s'.locked = s.locked := by
  unfold Sample.mix_at at h
  split at h
  · simp at h
  split at h
  · simp at h
  simp only [] at h
  split at h
  · simp at h
  · injection h with h
    refine ⟨?_, ?_, ?_, ?_⟩ <;> rw [← h]

lemma append_ok_fields {s s' : Sample} {sec : ℚ} (h : s.append sec = .ok s') :
    s'.samplerate = s.samplerate ∧ s'.nchannels = s.nchannels ∧
    s'.sampwidth = s.sampwidth ∧ s'.locked = s.locked := by
  unfold Sample.append at h
  split at h
  · simp at h
  · injection h with h
    refine ⟨?_, ?_, ?_, ?_⟩ <;> rw [← h]

lemma cut_ok_fields {s s' : Sample} {a b : ℚ} (h : s.cut a b = .ok s') :
    s'.samplerate = s.samplerate ∧ s'.nchannels = s.nchannels ∧
    s'.sampwidth = s.sampwidth ∧ s'.locked = s.locked := by
  unfold Sample.cut at h
  split at h
  · simp at h
  split at h
  · simp at h
  split at h
  · injection h with h
    refine ⟨?_, ?_, ?_, ?_⟩ <;> rw [← h]
  · injection h with h
    refine ⟨?_, ?_, ?_, ?_⟩ <;> rw [← h]

lemma foldMixAt_fields (l : List (ℕ × ℚ × Sample)) :
    ∀ (a s' : Sample), foldMixAt a l = .ok s' →
      s'.samplerate = a.samplerate ∧ s'.nchannels = a.nchannels ∧
      s'.sampwidth = a.sampwidth ∧ s'.locked = a.locked := by
  induction l with
  | nil =>
    intro a s' h
    rw [foldMixAt] at h
    injection h with h
    rw [h]
    exact ⟨rfl, rfl, rfl, rfl⟩
  | cons x xs ih =>
    intro a s' h
    rw [foldMixAt] at h
    split at h
    · simp at h
    · next a2 hx =>
      obtain ⟨f1, f2, f3, f4⟩ := mix_at_ok_fields hx
      obtain ⟨g1, g2, g3, g4⟩ := ih a2 s' h
      exact ⟨g1.trans f1, g2.trans f2, g3.trans f3, g4.trans f4⟩

/-- Inversion of `Mixer.mix` on a non-empty pattern list: the run yields a
total, the mixed-sample list, the accumulator after folding `mix_at` over
it starting from the empty 32-bit sample, and the final append/cut/no-op
correction. -/
lemma mix_inversion (m : Mixer) (s : Sample) (hne : m.patterns ≠ [])
    (h : m.mix = .ok s) :
    ∃ total samples acc,
      totalSeconds m.patterns m.bpm m.ticks = .ok total ∧
      m.mixedSamples = .ok samples ∧
      foldMixAt (Sample.mk 44100 2 4 [] false) samples = .ok acc ∧
      ((0 < total - acc.duration ∧ acc.append (total - acc.duration) = .ok s) ∨
       (total - acc.duration < 0 ∧ acc.cut 0 total = .ok s) ∨
       (total - acc.duration = 0 ∧ acc = s)) := by
  unfold Mixer.mix at h
  rw [if_neg hne] at h
  have h32 : (Sample.new []).make_32bit true = .ok (Sample.mk 44100 2 4 [] false) := by decide
  rw [h32] at h
  simp only [] at h
  split at h
  · simp at h
  next total htot =>
    split at h
    · simp at h
    next samples hsam =>
      split at h
      · simp at h
      next acc hacc =>
        refine ⟨total, samples, acc, htot, hsam, hacc, ?_⟩
        split at h
        · next hpos => exact Or.inl ⟨hpos, h⟩
        · next hpos =>
          split at h
          · next hneg => exact Or.inr (Or.inl ⟨hneg, h⟩)
          · next hneg =>
            injection h with h
            refine Or.inr (Or.inr ⟨by linarith [not_lt.mp hpos, not_lt.mp hneg], h⟩)

/-- Claim C10: with an empty pattern list `Mixer.mix` returns a fresh
unlocked empty Sample in the default normalized format (44100 Hz,
2 channels, 2-byte width) without entering the 32-bit accumulation path,
while any successful mix of a non-empty pattern list returns a sample of
width 4. -/
theorem C10_empty_patterns (ps : List Pattern) (bpm ticks : ℕ)
    (instr : List (String × Sample)) :
    (ps = [] → Mixer.mix ⟨ps, bpm, ticks, instr⟩ = .ok (Sample.new [])) ∧
    ((Sample.new []).samplerate = 44100 ∧ (Sample.new []).nchannels = 2 ∧
      (Sample.new []).sampwidth = 2 ∧ (Sample.new []).frames = [] ∧
      (Sample.new []).locked = false) ∧
    (ps ≠ [] → ∀ s, Mixer.mix ⟨ps, bpm, ticks, instr⟩ = .ok s → s.sampwidth = 4) := by
  refine ⟨?_, ⟨rfl, rfl, rfl, rfl, rfl⟩, ?_⟩
  · intro he
    subst he
    unfold Mixer.mix
    rw [if_pos rfl]
  · intro hne s h
    obtain ⟨total, samples, acc, _, _, hfold, hcor⟩ :=
      mix_inversion ⟨ps, bpm, ticks, instr⟩ s hne h
    have hacc : acc.sampwidth = 4 := (foldMixAt_fields samples _ acc hfold).2.2.1
    rcases hcor with ⟨_, happ⟩ | ⟨_, hcut⟩ | ⟨_, heq⟩
    · rw [(append_ok_fields happ).2.2.1, hacc]
    · rw [(cut_ok_fields hcut).2.2.1, hacc]
    · rw [← heq, hacc]

/-- Witness for C10: the empty-pattern mix at concrete arguments, and a
concrete one-pattern mix whose result has width 4. -/
theorem C10_witness :
    Mixer.mix ⟨[], 120, 4, []⟩ = .ok (Sample.new []) ∧
    (Sample.new []).sampwidth = 2 ∧
    (Sample.mk 44100 2 4 [0, 0] false).sampwidth = 4 := by
  have hmix : Mixer.mix ⟨[[("i", "x")]], 1764000, 1, [("i", Sample.mk 44100 2 4 [] true)]⟩
      = .ok (Sample.mk 44100 2 4 [0, 0] false) := by with_unfolding_all rfl
  refine ⟨(C10_empty_patterns [] 120 4 []).1 rfl, rfl, ?_⟩
  exact (C10_empty_patterns [[("i", "x")]] 1764000 1 [("i", Sample.mk 44100 2 4 [] true)]).2.2
    (by simp) (Sample.mk 44100 2 4 [0, 0] false) hmix

/-! ## Claim C1: parity and length bookkeeping -/

lemma pyIdx_le (n : ℕ) (i : ℤ) : pyIdx n i ≤ n := by
  unfold pyIdx
  split <;> omega

lemma pyIdx_even (n : ℕ) (i : ℤ) (hn : 2 ∣ n) (hi : (2 : ℤ) ∣ i) : 2 ∣ pyIdx n i := by
  unfold pyIdx
  split <;> omega

lemma joinFrames_parity (G midL : List ℤ) (A B : ℤ)
    (hG : 2 ∣ G.length) (hA : (2 : ℤ) ∣ A) (hB : (2 : ℤ) ∣ B) (hm : 2 ∣ midL.length) :
    2 ∣ (G.take (pyIdx G.length A) ++ midL ++ G.drop (pyIdx G.length B)).length := by
  have h1 := pyIdx_le G.length A
  have h2 := pyIdx_le G.length B
  have p1 := pyIdx_even G.length A hG hA
  have p2 := pyIdx_even G.length B hG hB
  simp only [List.length_append, List.length_take, List.length_drop]
  omega

lemma frameIdxS_even {s : Sample} (hch : s.nchannels = 2) (sec : ℚ) :
    (2 : ℤ) ∣ s.frameIdxS sec := by
  unfold Sample.frameIdxS
  rw [hch]
  push_cast
  exact dvd_mul_right 2 _

/-- A successful `mix_at` with an even-length other buffer on a 2-channel
even-length accumulator keeps the buffer length even. -/
lemma mix_at_ok_even {s o s' : Sample} {sec : ℚ} (hch : s.nchannels = 2)
    (hs : 2 ∣ s.frames.length) (ho : 2 ∣ o.frames.length)
    (h : s.mix_at sec o none = .ok s') : 2 ∣ s'.frames.length := by
  have hst : (2 : ℤ) ∣ s.frameIdxS sec := frameIdxS_even hch sec
  unfold Sample.mix_at at h
  split at h
  · simp at h
  split at h
  · simp at h
  simp only [Sample.truncOther] at h
  by_cases hg : (s.frames.length : ℤ) < s.frameIdxS sec + (o.frames.length : ℕ)
  · rw [if_pos hg] at h
    split at h
    · simp at h
    next mid hAA =>
      injection h with h
      unfold audioopAdd at hAA
      split at hAA
      · next hEq =>
        injection hAA with hAA
        have hmid : 2 ∣ mid.length := by
          rw [← hAA]
          simp only [List.length_zipWith, hEq, min_self]
          exact ho
        rw [← h]
        simp only [joinFrames_eq]
        apply joinFrames_parity
        · simp only [List.length_append, List.length_replicate]
          omega
        · exact hst
        · omega
        · exact hmid
      · simp at hAA
  · rw [if_neg hg] at h
    split at h
    · simp at h
    next mid hAA =>
      injection h with h
      unfold audioopAdd at hAA
      split at hAA
      · next hEq =>
        injection hAA with hAA
        have hmid : 2 ∣ mid.length := by
          rw [← hAA]
          simp only [List.length_zipWith, hEq, min_self]
          exact ho
        rw [← h]
        simp only [joinFrames_eq]
        apply joinFrames_parity
        · exact hs
        · exact hst
        · omega
        · exact hmid
      · simp at hAA

lemma mix_ok_formats {a b c : Sample} {os : Option ℚ} {ps : Bool}
    (h : a.mix b os ps = .ok c) :
    a.locked = false ∧ a.sampwidth = b.sampwidth ∧ a.samplerate = b.samplerate ∧
    a.nchannels = b.nchannels := by
  unfold Sample.mix at h
  split at h
  · simp at h
  next h1 =>
    split at h
    · simp at h
    next h2 =>
      obtain ⟨x, y, z⟩ := not_not.mp h2
      exact ⟨by simpa using h1, x, y, z⟩

lemma mix_ok_even {a b c : Sample} (ha2 : 2 ∣ a.frames.length)
    (hb2 : 2 ∣ b.frames.length) (h : a.mix b none true = .ok c) :
    2 ∣ c.frames.length := by
  obtain ⟨hl, hw, hr, hc⟩ := mix_ok_formats h
  rw [mix_none_true_eq a b hl hw hr hc] at h
  injection h with h
  rw [← h]
  simp only [List.length_zipWith, List.length_append, List.length_replicate]
  omega

lemma totalSecondsGo_le (bpm ticks : ℕ) (ps : List Pattern) :
    ∀ (acc t : ℚ), totalSecondsGo bpm ticks acc ps = .ok t → acc ≤ t := by
  induction ps with
  | nil =>
    intro acc t h
    rw [totalSecondsGo] at h
    injection h with h
    rw [h]
  | cons p rest ih =>
    intro acc t h
    rw [totalSecondsGo] at h
    split at h
    · simp at h
    next pr hpr =>
      split at h
      · simp at h
      · have hnn : (0 : ℚ) ≤ (pr.2.length : ℚ) * 60 / (bpm : ℚ) / (ticks : ℚ) := by positivity
        have hrec := ih _ t h
        linarith

/-- `append` on an unlocked sample appends exactly the computed zero run. -/
lemma append_ok_frames {s s' : Sample} {sec : ℚ} (h : s.append sec = .ok s') :
    s'.frames = s.frames ++ List.replicate (s.frameIdxS sec).toNat 0 := by
  unfold Sample.append at h
  split at h
  · simp at h
  · injection h with h
    rw [← h]

/-! ## Claim C1: every sample yielded by the trigger pipeline has an
even buffer length when every instrument sample does -/

lemma lookup_mem {α β : Type} [BEq α] {l : List (α × β)} {k : α} {v : β}
    (h : l.lookup k = some v) : ∃ k2, (k2, v) ∈ l := by
  induction l with
  | nil => simp [List.lookup] at h
  | cons x xs ih =>
    obtain ⟨a, b⟩ := x
    rw [List.lookup] at h
    split at h
    · injection h with h
      exact ⟨a, by rw [h]; exact List.mem_cons_self _ _⟩
    · obtain ⟨k2, hk⟩ := ih h
      exact ⟨k2, List.mem_cons_of_mem _ hk⟩

lemma triggersAt_samples (instr : List (String × Sample)) (i : ℕ) :
    ∀ (p : Pattern) (ts : List (String × Sample)), triggersAt instr i p = .ok ts →
      ∀ x ∈ ts, ∃ k2, (k2, (x : String × Sample).2) ∈ instr := by
  intro p
  induction p with
  | nil =>
    intro ts h x hx
    rw [triggersAt] at h
    injection h with h
    rw [← h] at hx
    exact absurd hx (List.not_mem_nil x)
  | cons pr rest ih =>
    intro ts h x hx
    obtain ⟨instrument, bars⟩ := pr
    rw [triggersAt] at h
    split at h
    · simp at h
    · split at h
      · exact ih ts h x hx
      · split at h
        · simp at h
        next sample hlk =>
          split at h
          · simp at h
          next ts2 hts2 =>
            injection h with h
            rw [← h] at hx
            rcases List.mem_cons.mp hx with hx | hx
            · rw [hx]
              exact lookup_mem hlk
            · exact ih ts2 hts2 x hx

lemma patternTriggers_samples (instr : List (String × Sample)) (κ : ℚ) (p : Pattern)
    (startIndex : ℕ) :
    ∀ (idxs : List ℕ) (out : List (ℕ × ℚ × List (String × Sample))),
      patternTriggers instr κ p startIndex idxs = .ok out →
      ∀ t ∈ out, ∀ x ∈ (t : ℕ × ℚ × List (String × Sample)).2.2,
        ∃ k2, (k2, (x : String × Sample).2) ∈ instr := by
  intro idxs
  induction idxs with
  | nil =>
    intro out h t ht
    rw [patternTriggers] at h
    injection h with h
    rw [← h] at ht
    exact absurd ht (List.not_mem_nil t)
  | cons i rest ih =>
    intro out h t ht x hx
    rw [patternTriggers] at h
    split at h
    · simp at h
    next tr htr =>
      split at h
      · simp at h
      next tail htail =>
        split at h
        · injection h with h
          rw [← h] at ht
          rcases List.mem_cons.mp ht with ht | ht
          · rw [ht] at hx
            exact triggersAt_samples instr i p tr htr x hx
          · exact ih tail htail t ht x hx
        · injection h with h
          rw [← h] at ht
          exact ih tail htail t ht x hx

lemma mixedTriggersGo_samples (instr : List (String × Sample)) (κ : ℚ) :
    ∀ (ps : List Pattern) (index : ℕ) (out : List (ℕ × ℚ × List (String × Sample))),
      mixedTriggersGo instr κ index ps = .ok out →
      ∀ t ∈ out, ∀ x ∈ (t : ℕ × ℚ × List (String × Sample)).2.2,
        ∃ k2, (k2, (x : String × Sample).2) ∈ instr := by
  intro ps
  induction ps with
  | nil =>
    intro index out h t ht
    rw [mixedTriggersGo] at h
    injection h with h
    rw [← h] at ht
    exact absurd ht (List.not_mem_nil t)
  | cons p rest ih =>
    intro index out h t ht x hx
    rw [mixedTriggersGo] at h
    split at h
    · simp at h
    next pr hpr =>
      split at h
      · simp at h
      next here hhere =>
        split at h
        · simp at h
        next tail htail =>
          injection h with h
          rw [← h] at ht
          rcases List.mem_append.mp ht with ht | ht
          · exact patternTriggers_samples instr κ p index _ here hhere t ht x hx
          · exact ih _ tail htail t ht x hx

lemma mixedTriggers_samples (m : Mixer) (out : List (ℕ × ℚ × List (String × Sample)))
    (h : m.mixedTriggers = .ok out) :
    ∀ t ∈ out, ∀ x ∈ (t : ℕ × ℚ × List (String × Sample)).2.2,
      ∃ k2, (k2, (x : String × Sample).2) ∈ m.instruments := by
  unfold Mixer.mixedTriggers at h
  split at h
  · simp at h
  · exact mixedTriggersGo_samples m.instruments _ m.patterns 0 out h

lemma foldl_pick_mem (l : List (String × Sample)) :
    ∀ (b : Sample),
      l.foldl (fun best x => if best.duration < x.2.duration then x.2 else best) b = b ∨
      ∃ x ∈ l, l.foldl (fun best x => if best.duration < x.2.duration then x.2 else best) b
        = (x : String × Sample).2 := by
  induction l with
  | nil => intro b; exact Or.inl rfl
  | cons y ys ih =>
    intro b
    simp only [List.foldl_cons]
    by_cases hy : b.duration < y.2.duration
    · rw [if_pos hy]
      rcases ih y.2 with h | ⟨x, hx, hfx⟩
      · exact Or.inr ⟨y, List.mem_cons_self _ _, h⟩
      · exact Or.inr ⟨x, List.mem_cons_of_mem _ hx, hfx⟩
    · rw [if_neg hy]
      rcases ih b with h | ⟨x, hx, hfx⟩
      · exact Or.inl h
      · exact Or.inr ⟨x, List.mem_cons_of_mem _ hx, hfx⟩

lemma longestSample_even (t0 : String × Sample) (rest : List (String × Sample))
    (h0 : 2 ∣ t0.2.frames.length) (hr : ∀ x ∈ rest, 2 ∣ (x : String × Sample).2.frames.length) :
    2 ∣ (longestSample t0 rest).frames.length := by
  unfold longestSample
  rcases foldl_pick_mem rest t0.2 with h | ⟨x, hx, hfx⟩
  · rw [h]; exact h0
  · rw [hfx]; exact hr x hx

lemma mixTriggers_even (longest : Sample) :
    ∀ (ts : List (String × Sample)) (acc out : Sample),
      2 ∣ acc.frames.length → (∀ x ∈ ts, 2 ∣ (x : String × Sample).2.frames.length) →
      mixTriggers longest acc ts = .ok out → 2 ∣ out.frames.length := by
  intro ts
  induction ts with
  | nil =>
    intro acc out hacc _ h
    rw [mixTriggers] at h
    injection h with h
    rw [← h]
    exact hacc
  | cons x rest ih =>
    intro acc out hacc hts h
    obtain ⟨nm, smp⟩ := x
    rw [mixTriggers] at h
    split at h
    · exact ih acc out hacc (fun y hy => hts y (List.mem_cons_of_mem _ hy)) h
    · split at h
      · simp at h
      next acc2 hmix =>
        have h2 : 2 ∣ acc2.frames.length :=
          mix_ok_even hacc (hts (nm, smp) (List.mem_cons_self _ _)) hmix
        exact ih acc2 out h2 (fun y hy => hts y (List.mem_cons_of_mem _ hy)) h

lemma mixedSamplesGo_even :
    ∀ (trs : List (ℕ × ℚ × List (String × Sample)))
      (cache : List (List String × Sample)) (out : List (ℕ × ℚ × Sample)),
      (∀ t ∈ trs, ∀ x ∈ (t : ℕ × ℚ × List (String × Sample)).2.2,
        2 ∣ (x : String × Sample).2.frames.length) →
      (∀ c ∈ cache, 2 ∣ (c : List String × Sample).2.frames.length) →
      mixedSamplesGo cache trs = .ok out →
      ∀ y ∈ out, 2 ∣ (y : ℕ × ℚ × Sample).2.2.frames.length := by
  intro trs
  induction trs with
  | nil =>
    intro cache out _ _ h y hy
    rw [mixedSamplesGo.eq_def] at h
    simp only [] at h
    injection h with h
    rw [← h] at hy
    exact absurd hy (List.not_mem_nil y)
  | cons tr rest ih =>
    intro cache out htr hc h y hy
    obtain ⟨index, ts, triggers⟩ := tr
    rw [mixedSamplesGo.eq_def] at h
    simp only [] at h
    split at h
    · simp at h
    · -- single trigger
      next t =>
      split at h
      · simp at h
      next tail htail =>
        injection h with h
        rw [← h] at hy
        rcases List.mem_cons.mp hy with hy | hy
        · rw [hy]
          exact htr (index, ts, [t]) (List.mem_cons_self _ _) t (List.mem_cons_self _ _)
        · exact ih cache tail (fun u hu => htr u (List.mem_cons_of_mem _ hu)) hc htail y hy
    · -- multiple triggers
      next t0 t1 trest =>
      split at h
      · -- cache hit
        next smp hlk =>
        split at h
        · simp at h
        next tail htail =>
          injection h with h
          rw [← h] at hy
          rcases List.mem_cons.mp hy with hy | hy
          · rw [hy]
            obtain ⟨k2, hk⟩ := lookup_mem hlk
            exact hc (k2, smp) hk
          · exact ih cache tail (fun u hu => htr u (List.mem_cons_of_mem _ hu)) hc htail y hy
      · -- cache miss: mix the combination
        split at h
        · simp at h
        next mixed hmixed =>
          split at h
          · simp at h
          next tail htail =>
            have hall : ∀ x ∈ t0 :: t1 :: trest, 2 ∣ (x : String × Sample).2.frames.length :=
              htr (index, ts, t0 :: t1 :: trest) (List.mem_cons_self _ _)
            have hlong : 2 ∣ (longestSample t0 (t1 :: trest)).frames.length :=
              longestSample_even t0 (t1 :: trest) (hall t0 (List.mem_cons_self _ _))
                (fun x hx => hall x (List.mem_cons_of_mem _ hx))
            have hmix2 : 2 ∣ mixed.frames.length :=
              mixTriggers_even _ (t0 :: t1 :: trest)
                (longestSample t0 (t1 :: trest)).dup mixed hlong hall hmixed
            injection h with h
            rw [← h] at hy
            rcases List.mem_cons.mp hy with hy | hy
            · rw [hy]
              exact hmix2
            · refine ih _ tail (fun u hu => htr u (List.mem_cons_of_mem _ hu)) ?_ htail y hy
              intro c hcc0
              rcases List.mem_cons.mp hcc0 with hcc | hcc
              · rw [hcc]
                exact hmix2
              · exact hc c hcc

lemma mixedSamples_even (m : Mixer) (out : List (ℕ × ℚ × Sample))
    (h : m.mixedSamples = .ok out)
    (hinstr : ∀ pr ∈ m.instruments, 2 ∣ (pr : String × Sample).2.frames.length) :
    ∀ y ∈ out, 2 ∣ (y : ℕ × ℚ × Sample).2.2.frames.length := by
  unfold Mixer.mixedSamples at h
  split at h
  · simp at h
  next trs htrs =>
    have htr : ∀ t ∈ trs, ∀ x ∈ (t : ℕ × ℚ × List (String × Sample)).2.2,
        2 ∣ (x : String × Sample).2.frames.length := by
      intro t ht x hx
      obtain ⟨k2, hk⟩ := mixedTriggers_samples m trs htrs t ht x hx
      exact hinstr (k2, x.2) hk
    exact mixedSamplesGo_even trs [] out htr (by intro c hcc; exact absurd hcc (List.not_mem_nil c)) h

lemma foldMixAt_even (l : List (ℕ × ℚ × Sample)) :
    ∀ (a s' : Sample), a.nchannels = 2 → 2 ∣ a.frames.length →
      (∀ x ∈ l, 2 ∣ (x : ℕ × ℚ × Sample).2.2.frames.length) →
      foldMixAt a l = .ok s' → 2 ∣ s'.frames.length := by
  induction l with
  | nil =>
    intro a s' _ ha _ h
    rw [foldMixAt] at h
    injection h with h
    rw [← h]
    exact ha
  | cons x xs ih =>
    intro a s' hch ha hl h
    rw [foldMixAt] at h
    split at h
    · simp at h
    next a2 hx =>
      have h2 : 2 ∣ a2.frames.length :=
        mix_at_ok_even hch ha (hl x (List.mem_cons_self _ _)) hx
      have hch2 : a2.nchannels = 2 := by rw [(mix_at_ok_fields hx).2.1, hch]
      exact ih a2 s' hch2 h2 (fun u hu => hl u (List.mem_cons_of_mem _ hu)) h

/-! ## Claim C1: the final duration of `Mixer.mix` -/

lemma pyIdx_zero (n : ℕ) : pyIdx n 0 = 0 := by
  unfold pyIdx
  simp

lemma duration_of_fields {s : Sample} (hr : s.samplerate = 44100) (hc : s.nchannels = 2)
    (hw : s.sampwidth = 4) : s.duration = (s.frames.length : ℚ) / 88200 := by
  unfold Sample.duration
  rw [hr, hc, hw]
  push_cast
  field_simp
  ring

/-- Claim C1 counterexample: for one pattern of a single one-tick bar at
bpm 1764000 the pattern-derived total is `1/29400` seconds (`3/2` output
frames), but the rendered sample's duration is `1/44100` — the appended
silence is floored to a whole frame count, so the duration does not equal
the theoretical total. -/
theorem C1_counterexample :
    totalSeconds [[("i", "x")]] 1764000 1 = .ok (1/29400) ∧
    Mixer.mix ⟨[[("i", "x")]], 1764000, 1, [("i", Sample.mk 44100 2 4 [] true)]⟩
      = .ok (Sample.mk 44100 2 4 [0, 0] false) ∧
    (Sample.mk 44100 2 4 [0, 0] false).duration ≠ 1/29400 := by
  refine ⟨by with_unfolding_all rfl, by with_unfolding_all rfl, ?_⟩
  with_unfolding_all decide

/-- Claim C1 as amended: for a non-empty pattern list (with instrument
buffers holding whole stereo frames), any successful `Mixer.mix` returns
a sample of exactly `⌊samplerate * totalSeconds⌋` frames
(`2⌊44100 * total⌋` samples): its duration is `⌊44100 * total⌋ / 44100`,
which is within one frame period below the pattern-derived total — equal
to it exactly when `44100 * total` is an integer, and strictly below it
otherwise. -/
theorem C1_amended_duration (ps : List Pattern) (bpm ticks : ℕ)
    (instr : List (String × Sample)) (t : ℚ) (s : Sample)
    (hne : ps ≠ [])
    (hinstr : ∀ pr ∈ instr, 2 ∣ (pr : String × Sample).2.frames.length)
    (ht : totalSeconds ps bpm ticks = .ok t)
    (h : Mixer.mix ⟨ps, bpm, ticks, instr⟩ = .ok s) :
    s.frames.length = 2 * (⌊(44100 : ℚ) * t⌋).toNat ∧
    s.duration = ((⌊(44100 : ℚ) * t⌋ : ℤ) : ℚ) / 44100 ∧
    t - 1 / 44100 < s.duration ∧ s.duration ≤ t := by
  obtain ⟨total, samples, acc, htot, hsam, hfold, hcor⟩ := mix_inversion _ s hne h
  rw [ht] at htot
  injection htot with htt
  subst htt
  have ht0 : 0 ≤ t := totalSecondsGo_le bpm ticks ps 0 t ht
  have h44 : (0 : ℚ) < 44100 := by norm_num
  have hfl0 : 0 ≤ ⌊(44100 : ℚ) * t⌋ := Int.floor_nonneg.mpr (mul_nonneg (by norm_num) ht0)
  obtain ⟨hr44, hc2, hw4, hlk⟩ := foldMixAt_fields samples _ acc hfold
  have hr44' : acc.samplerate = 44100 := hr44
  have hc2' : acc.nchannels = 2 := hc2
  have hw4' : acc.sampwidth = 4 := hw4
  have hlk' : acc.locked = false := hlk
  have heven : 2 ∣ acc.frames.length :=
    foldMixAt_even samples (Sample.mk 44100 2 4 [] false) acc rfl ⟨0, rfl⟩
      (mixedSamples_even _ samples hsam hinstr) hfold
  obtain ⟨F, hF⟩ := heven
  have hdur : acc.duration = (F : ℚ) / 44100 := by
    rw [duration_of_fields hr44' hc2' hw4', hF]
    push_cast
    ring
  have hkey : s.frames.length = 2 * (⌊(44100 : ℚ) * t⌋).toNat := by
    rcases hcor with ⟨hpos, happ⟩ | ⟨hneg, hcut⟩ | ⟨h0, heq⟩
    · -- append silence
      rw [hdur] at hpos
      have hFlt : (F : ℚ) < 44100 * t := by
        have h2 := (div_lt_iff h44).mp (by linarith : (F : ℚ) / 44100 < t)
        linarith
      have hfi : acc.frameIdxS (t - acc.duration) = 2 * (⌊(44100 : ℚ) * t⌋ - F) := by
        unfold Sample.frameIdxS
        rw [hc2', hr44']
        have harg : ((44100 : ℕ) : ℚ) * (t - acc.duration) = 44100 * t - (F : ℕ) := by
          rw [hdur]
          push_cast
          field_simp
          ring
        rw [harg, pyInt_of_nonneg _ (by linarith), Int.floor_sub_nat]
        push_cast
        ring
      have hFle : (F : ℤ) ≤ ⌊(44100 : ℚ) * t⌋ := Int.le_floor.mpr (by push_cast; linarith)
      have hslen : s.frames.length =
          acc.frames.length + (acc.frameIdxS (t - acc.duration)).toNat := by
        rw [append_ok_frames happ, List.length_append, List.length_replicate]
      rw [hslen, hfi, hF]
      omega
    · -- cut to total
      rw [hdur] at hneg
      have hFgt : ⌊(44100 : ℚ) * t⌋ < (F : ℤ) := by
        apply Int.floor_lt.mpr
        have h2 := (lt_div_iff h44).mp (by linarith : t < (F : ℚ) / 44100)
        push_cast
        linarith
      unfold Sample.cut at hcut
      rw [if_neg (by simp [hlk'])] at hcut
      split at hcut
      · simp at hcut
      next hlt0 =>
        have hfidx : acc.frame_idx t = 8 * ⌊(44100 : ℚ) * t⌋ := by
          unfold Sample.frame_idx
          rw [hc2', hw4', hr44']
          have harg : ((44100 : ℕ) : ℚ) * t = (44100 : ℚ) * t := by push_cast; ring
          rw [harg, pyInt_of_nonneg _ (mul_nonneg (by norm_num) ht0)]
          ring
        split at hcut
        next hgu =>
          have hsfr : s.frames = pySlice acc.frames (acc.frameIdxS 0) (acc.frameIdxS t) := by
            injection hcut with hcut
            rw [← hcut]
          have hf0 : acc.frameIdxS 0 = 0 := by
            unfold Sample.frameIdxS
            rw [mul_zero, pyInt_of_nonneg _ le_rfl]
            simp
          have hfS : acc.frameIdxS t = ((2 * (⌊(44100 : ℚ) * t⌋).toNat : ℕ) : ℤ) := by
            unfold Sample.frameIdxS
            rw [hc2', hr44']
            have harg : ((44100 : ℕ) : ℚ) * t = (44100 : ℚ) * t := by push_cast; ring
            rw [harg, pyInt_of_nonneg _ (mul_nonneg (by norm_num) ht0)]
            push_cast [Int.toNat_of_nonneg hfl0]
            ring
          rw [hsfr, hf0, hfS]
          unfold pySlice
          rw [pyIdx_zero, pyIdx_natCast]
          simp only [List.drop_zero, List.length_take, hF]
          omega
        next hgu =>
          exfalso
          have hgu' := not_not.mp hgu
          rw [hfidx, hw4', hF] at hgu'
          omega
    · -- already exact
      rw [hdur] at h0
      have hqt : (44100 : ℚ) * t = ((F : ℕ) : ℚ) := by
        have h2 : t = (F : ℚ) / 44100 := by linarith
        rw [h2]
        field_simp
      have hfq : ⌊(44100 : ℚ) * t⌋ = (F : ℤ) := by
        rw [hqt]
        exact Int.floor_natCast F
      rw [← heq, hF, hfq]
      omega
  have hsfields : s.samplerate = 44100 ∧ s.nchannels = 2 ∧ s.sampwidth = 4 := by
    rcases hcor with ⟨_, happ⟩ | ⟨_, hcut⟩ | ⟨_, heq⟩
    · obtain ⟨a1, a2, a3, _⟩ := append_ok_fields happ
      exact ⟨a1.trans hr44', a2.trans hc2', a3.trans hw4'⟩
    · obtain ⟨a1, a2, a3, _⟩ := cut_ok_fields hcut
      exact ⟨a1.trans hr44', a2.trans hc2', a3.trans hw4'⟩
    · rw [← heq]
      exact ⟨hr44', hc2', hw4'⟩
  have hsdur : s.duration = ((⌊(44100 : ℚ) * t⌋ : ℤ) : ℚ) / 44100 := by
    rw [duration_of_fields hsfields.1 hsfields.2.1 hsfields.2.2, hkey]
    have hcast : ((2 * (⌊(44100 : ℚ) * t⌋).toNat : ℕ) : ℚ)
        = 2 * ((⌊(44100 : ℚ) * t⌋ : ℤ) : ℚ) := by
      rw [Nat.cast_mul, Nat.cast_ofNat]
      congr 1
      rw [← Int.cast_natCast, Int.toNat_of_nonneg hfl0]
    rw [hcast]
    ring
  refine ⟨hkey, hsdur, ?_, ?_⟩
  · rw [hsdur]
    have h1 := Int.lt_floor_add_one ((44100 : ℚ) * t)
    linarith
  · rw [hsdur]
    have h2 := Int.floor_le ((44100 : ℚ) * t)
    linarith

/-- Witness for C1's amended statement at the counterexample input: the
total is `1/29400`, `⌊44100/29400⌋ = 1`, and the rendered duration is
`1/44100`. -/
theorem C1_witness :
    ([[("i", "x")]] : List Pattern) ≠ [] ∧
    (Sample.mk 44100 2 4 [0, 0] false).frames.length
      = 2 * (⌊(44100 : ℚ) * (1/29400)⌋).toNat ∧
    (Sample.mk 44100 2 4 [0, 0] false).duration
      = ((⌊(44100 : ℚ) * (1/29400)⌋ : ℤ) : ℚ) / 44100 ∧
    (1 : ℚ)/29400 - 1/44100 < (Sample.mk 44100 2 4 [0, 0] false).duration ∧
    (Sample.mk 44100 2 4 [0, 0] false).duration ≤ 1/29400 := by
  have h := C1_amended_duration [[("i", "x")]] 1764000 1
    [("i", Sample.mk 44100 2 4 [] true)] (1/29400) (Sample.mk 44100 2 4 [0, 0] false)
    (by simp) (by intro pr hpr; rcases List.mem_singleton.mp hpr with h2; rw [h2]; exact ⟨0, rfl⟩)
    (by with_unfolding_all rfl) (by with_unfolding_all rfl)
  exact ⟨by simp, h.1, h.2.1, h.2.2.1, h.2.2.2⟩

end Rhythmbox
